import Mathlib

set_option synthInstance.maxSize 4000

/-!
Verification of the running-dinner route optimisation CLI
(src/route-opt/cli.py) against its natural-language specification.

The MILP model built by the script is shallowly embedded: the three
families of binary decision variables (assignment, chef, arc) and the
continuous variable maxDuration become a Sol record of Boolean-valued
functions together with a rational; every hard constraint the script adds
to the LpProblem becomes one Prop definition below, mirroring the nested
loops of the source, and Feasible is their conjunction.  Distances and
preference scores are rationals.  The input pipeline (header check,
divisibility check, distance-matrix construction with a fallible
provider) is embedded as a total function into Except.  The solution
decoders (group view and team view) are embedded as list-building
functions mirroring the iteration order of the source.
-/

/-- Indicator of a Boolean decision variable, as a natural number. -/
def bn (b : Bool) : ℕ := if b then 1 else 0

/-- Indicator of a Boolean decision variable, as a rational, used in
distance-weighted sums. -/
def bq (b : Bool) : ℚ := if b then 1 else 0

/-- Option flags of the CLI that influence the model (argparse section of
cli.py).  Defaults are the argparse defaults. -/
structure Config where
  numCourses : ℕ := 3
  minTravel : ℤ := 1
  canMeetAgain : Bool := false
  canStay : Bool := false
  ignorePreferences : Bool := false
  asymetricDistances : Bool := false
  ignoreAvgDist : Bool := false
  ignoreMaxDist : Bool := false
  hasAfterparty : Bool := false
  cookIncompatible : List ℕ := []
  largeTeams : ℕ := 0

/-- Assembled problem data: team count, the distance matrix keyed by
(origin, destination, course), the distances to the afterparty, the
per-course preference scores and the address of each team (addresses are
identified by a numeric id below nTeams). -/
structure Data where
  nTeams : ℕ
  distance_matrix : ℕ → ℕ → ℕ → ℚ
  afterparty_dist : ℕ → ℚ
  pref : ℕ → ℕ → ℚ
  addr : ℕ → ℕ

/-- A valuation of every decision variable of the model:
assignment t g c, chef t g c, arc c i j t g, maxDuration, largeTeam t. -/
structure Sol where
  assignment : ℕ → ℕ → ℕ → Bool
  chef : ℕ → ℕ → ℕ → Bool
  arc : ℕ → ℕ → ℕ → ℕ → ℕ → Bool
  maxDuration : ℚ
  largeTeam : ℕ → Bool

/-- groups = range(int(len(data) / len(courses))) in the source. -/
def numGroups (cfg : Config) (d : Data) : ℕ := d.nTeams / cfg.numCourses

/-- Source: assign every team to one group per course. -/
def assignOnePerCourse (cfg : Config) (d : Data) (s : Sol) : Prop :=
  ∀ t < d.nTeams, ∀ c < cfg.numCourses,
    (∑ g ∈ Finset.range (numGroups cfg d), bn (s.assignment t g c)) = 1

/-- Source: every group has one member for every course, that is group
size equals the number of courses. -/
def groupSizeEqCourses (cfg : Config) (d : Data) (s : Sol) : Prop :=
  ∀ g < numGroups cfg d, ∀ c < cfg.numCourses,
    (∑ t ∈ Finset.range d.nTeams, bn (s.assignment t g c)) = cfg.numCourses

/-- Source: teams can only meet once (added unless can-meet-again). -/
def meetOnlyOnce (cfg : Config) (d : Data) (s : Sol) : Prop :=
  ∀ c1 < cfg.numCourses, ∀ c2 < cfg.numCourses, c1 < c2 →
    ∀ g1 < numGroups cfg d, ∀ g2 < numGroups cfg d,
      ∀ t1 < d.nTeams, ∀ t2 < d.nTeams, t1 < t2 →
        bn (s.assignment t1 g1 c1) + bn (s.assignment t2 g1 c1) +
          bn (s.assignment t1 g2 c2) + bn (s.assignment t2 g2 c2) ≤ 3

/-- Source: temp fix no chef — a team whose preference for a course is at
the forbidden sentinel may not be chef in that course (added only when
preferences are used). -/
def forbiddenCourseNoChef (cfg : Config) (d : Data) (s : Sol) : Prop :=
  ∀ t < d.nTeams, ∀ c < cfg.numCourses, d.pref t c ≤ -1000 →
    ∀ g < numGroups cfg d, s.chef t g c = false

/-- Source: every group must have one chef per course. -/
def oneChefPerGroup (cfg : Config) (d : Data) (s : Sol) : Prop :=
  ∀ g < numGroups cfg d, ∀ c < cfg.numCourses,
    (∑ t ∈ Finset.range d.nTeams, bn (s.chef t g c)) = 1

/-- Source: every team is chef exactly once over all groups and courses. -/
def chefExactlyOnce (cfg : Config) (d : Data) (s : Sol) : Prop :=
  ∀ t < d.nTeams,
    (∑ g ∈ Finset.range (numGroups cfg d), ∑ c ∈ Finset.range cfg.numCourses,
      bn (s.chef t g c)) = 1

/-- Source: only be chef if assigned. -/
def chefOnlyIfAssigned (cfg : Config) (d : Data) (s : Sol) : Prop :=
  ∀ t < d.nTeams, ∀ g < numGroups cfg d, ∀ c < cfg.numCourses,
    bn (s.chef t g c) ≤ bn (s.assignment t g c)

/-- Source: only have arc when assigned — the arcs of team t for group g
and course c sum to its assignment indicator. -/
def arcIffAssigned (cfg : Config) (d : Data) (s : Sol) : Prop :=
  ∀ t < d.nTeams, ∀ g < numGroups cfg d, ∀ c < cfg.numCourses,
    (∑ i ∈ Finset.range d.nTeams, ∑ j ∈ Finset.range d.nTeams,
      bn (s.arc c i j t g)) = bn (s.assignment t g c)

/-- Source: start at self if assigned — in the first course the arc of a
team must have the team itself as origin. -/
def startAtSelf (cfg : Config) (d : Data) (s : Sol) : Prop :=
  ∀ t < d.nTeams, ∀ g < numGroups cfg d,
    (∑ j ∈ Finset.range d.nTeams, bn (s.arc 0 t j t g)) =
      bn (s.assignment t g 0)

/-- Source: go only to chef — an arc may only end at the location of the
chef of that group and course. -/
def goOnlyToChef (cfg : Config) (d : Data) (s : Sol) : Prop :=
  ∀ c < cfg.numCourses, ∀ t < d.nTeams, ∀ g < numGroups cfg d,
    ∀ i < d.nTeams, ∀ j < d.nTeams,
      bn (s.arc c i j t g) ≤ bn (s.chef j g c)

/-- Source: can only leave if entering — for every course after the first,
the arcs of team t leaving location i (to a different location) balance
the arcs of the previous course entering location i. -/
def leaveOnlyIfEntering (cfg : Config) (d : Data) (s : Sol) : Prop :=
  ∀ c, 1 ≤ c → c < cfg.numCourses → ∀ t < d.nTeams, ∀ i < d.nTeams,
    (∑ j ∈ Finset.range d.nTeams, ∑ g ∈ Finset.range (numGroups cfg d),
      if j = i then 0 else bn (s.arc c i j t g)) =
    (∑ r ∈ Finset.range d.nTeams, ∑ g ∈ Finset.range (numGroups cfg d),
      bn (s.arc (c - 1) r i t g))

/-- Total routed travel time of team t, afterparty leg included for the
last course, as in the max dist constraint and the distance_sum term. -/
def teamTravel (cfg : Config) (d : Data) (s : Sol) (t : ℕ) : ℚ :=
  ∑ c ∈ Finset.range cfg.numCourses, ∑ i ∈ Finset.range d.nTeams,
    ∑ j ∈ Finset.range d.nTeams, ∑ g ∈ Finset.range (numGroups cfg d),
      if j = i then 0 else
        bq (s.arc c i j t g) *
          ((if c = cfg.numCourses - 1 then d.afterparty_dist j else 0) +
            d.distance_matrix i j c)

/-- Source: max dist constraint — every routed total is at most the
continuous variable maxDuration (added unless ignore-max-dist). -/
def maxDistConstraint (cfg : Config) (d : Data) (s : Sol) : Prop :=
  ∀ t < d.nTeams, teamTravel cfg d s t ≤ s.maxDuration

/-- Travel sum used by the minimum time constraint: no afterparty term and
only arcs between distinct teams. -/
def minTravelSum (cfg : Config) (d : Data) (s : Sol) (t : ℕ) : ℚ :=
  ∑ c ∈ Finset.range cfg.numCourses, ∑ i ∈ Finset.range d.nTeams,
    ∑ j ∈ Finset.range d.nTeams, ∑ g ∈ Finset.range (numGroups cfg d),
      if j = i then 0 else bq (s.arc c i j t g) * d.distance_matrix i j c

/-- Source: have minimum time constraint (always added). -/
def minTimeConstraint (cfg : Config) (d : Data) (s : Sol) : Prop :=
  ∀ t < d.nTeams, (cfg.minTravel : ℚ) ≤ minTravelSum cfg d s t

/-- Source: forbid any arc with a travel time of at most 1
(added unless can-stay). -/
def noStayArcs (cfg : Config) (d : Data) (s : Sol) : Prop :=
  ∀ t < d.nTeams, ∀ c < cfg.numCourses, ∀ g < numGroups cfg d,
    ∀ j < d.nTeams, ∀ i < d.nTeams, i ≠ j →
      d.distance_matrix i j c ≤ 1 → s.arc c i j t g = false

/-- itertools.combinations of a list, pairs in source iteration order. -/
def combinations2 : List ℕ → List (ℕ × ℕ)
  | [] => []
  | x :: xs => xs.map (fun y => (x, y)) ++ combinations2 xs

/-- Source: cook incompatibility — for every pair (t1, t2) produced by
combinations(cook_incompatible, 2), team t1 may not be assigned to a
group whose chef is t2. -/
def cookIncompatConstraint (cfg : Config) (d : Data) (s : Sol) : Prop :=
  ∀ p ∈ combinations2 cfg.cookIncompatible, ∀ c < cfg.numCourses,
    ∀ g < numGroups cfg d,
      (bn (s.assignment p.1 g c) : ℤ) ≤ 1 - (bn (s.chef p.2 g c) : ℤ)

/-- Source: large team constraints — exactly largeTeams teams are marked
large and two large teams never share a group (added when largeTeams is
positive). -/
def largeTeamConstraints (cfg : Config) (d : Data) (s : Sol) : Prop :=
  0 < cfg.largeTeams →
    (∑ t ∈ Finset.range d.nTeams, bn (s.largeTeam t)) = cfg.largeTeams ∧
    ∀ c < cfg.numCourses, ∀ g < numGroups cfg d,
      ∀ t1 < d.nTeams, ∀ t2 < d.nTeams, t1 ≠ t2 →
        bn (s.assignment t1 g c) + bn (s.assignment t2 g c) +
          bn (s.largeTeam t1) + bn (s.largeTeam t2) ≤ 3

/-- Source: teams with the same address must not cook within the same
course beyond the proportional cap max(1, ceil(count / numCourses)). -/
def sameAddrChefCap (cfg : Config) (d : Data) (s : Sol) : Prop :=
  ∀ a ∈ Finset.image d.addr (Finset.range d.nTeams),
    1 < ((Finset.range d.nTeams).filter (fun t => d.addr t = a)).card →
      ∀ c < cfg.numCourses,
        (∑ t ∈ (Finset.range d.nTeams).filter (fun t => d.addr t = a),
          ∑ g ∈ Finset.range (numGroups cfg d), bn (s.chef t g c)) ≤
        max 1 ((((Finset.range d.nTeams).filter
          (fun t => d.addr t = a)).card + cfg.numCourses - 1) / cfg.numCourses)

/-- The complete set of hard constraints of the model, in the order the
source adds them; optional families carry the option guard of the source.
The bound 0 ≤ maxDuration is the lower bound of the LpVariable. -/
def Feasible (cfg : Config) (d : Data) (s : Sol) : Prop :=
  assignOnePerCourse cfg d s ∧
  groupSizeEqCourses cfg d s ∧
  (cfg.canMeetAgain = false → meetOnlyOnce cfg d s) ∧
  (cfg.ignorePreferences = false → forbiddenCourseNoChef cfg d s) ∧
  oneChefPerGroup cfg d s ∧
  chefExactlyOnce cfg d s ∧
  chefOnlyIfAssigned cfg d s ∧
  arcIffAssigned cfg d s ∧
  startAtSelf cfg d s ∧
  goOnlyToChef cfg d s ∧
  leaveOnlyIfEntering cfg d s ∧
  0 ≤ s.maxDuration ∧
  (cfg.ignoreMaxDist = false → maxDistConstraint cfg d s) ∧
  minTimeConstraint cfg d s ∧
  (cfg.canStay = false → noStayArcs cfg d s) ∧
  cookIncompatConstraint cfg d s ∧
  largeTeamConstraints cfg d s ∧
  sameAddrChefCap cfg d s

instance decAssignOne (cfg : Config) (d : Data) (s : Sol) :
    Decidable (assignOnePerCourse cfg d s) := by
  unfold assignOnePerCourse; infer_instance

instance decGroupSize (cfg : Config) (d : Data) (s : Sol) :
    Decidable (groupSizeEqCourses cfg d s) := by
  unfold groupSizeEqCourses; infer_instance

instance decMeetOnce (cfg : Config) (d : Data) (s : Sol) :
    Decidable (meetOnlyOnce cfg d s) := by
  unfold meetOnlyOnce; infer_instance

instance decForbidden (cfg : Config) (d : Data) (s : Sol) :
    Decidable (forbiddenCourseNoChef cfg d s) := by
  unfold forbiddenCourseNoChef; infer_instance

instance decOneChef (cfg : Config) (d : Data) (s : Sol) :
    Decidable (oneChefPerGroup cfg d s) := by
  unfold oneChefPerGroup; infer_instance

instance decChefOnce (cfg : Config) (d : Data) (s : Sol) :
    Decidable (chefExactlyOnce cfg d s) := by
  unfold chefExactlyOnce; infer_instance

instance decChefAssigned (cfg : Config) (d : Data) (s : Sol) :
    Decidable (chefOnlyIfAssigned cfg d s) := by
  unfold chefOnlyIfAssigned; infer_instance

instance decArcIff (cfg : Config) (d : Data) (s : Sol) :
    Decidable (arcIffAssigned cfg d s) := by
  unfold arcIffAssigned; infer_instance

instance decStartSelf (cfg : Config) (d : Data) (s : Sol) :
    Decidable (startAtSelf cfg d s) := by
  unfold startAtSelf; infer_instance

instance decGoChef (cfg : Config) (d : Data) (s : Sol) :
    Decidable (goOnlyToChef cfg d s) := by
  unfold goOnlyToChef; infer_instance

instance decLeave (cfg : Config) (d : Data) (s : Sol) :
    Decidable (leaveOnlyIfEntering cfg d s) := by
  unfold leaveOnlyIfEntering; infer_instance

instance decMaxDist (cfg : Config) (d : Data) (s : Sol) :
    Decidable (maxDistConstraint cfg d s) := by
  unfold maxDistConstraint; infer_instance

instance decMinTime (cfg : Config) (d : Data) (s : Sol) :
    Decidable (minTimeConstraint cfg d s) := by
  unfold minTimeConstraint; infer_instance

instance decNoStay (cfg : Config) (d : Data) (s : Sol) :
    Decidable (noStayArcs cfg d s) := by
  unfold noStayArcs; infer_instance

instance decCookIncompat (cfg : Config) (d : Data) (s : Sol) :
    Decidable (cookIncompatConstraint cfg d s) := by
  unfold cookIncompatConstraint; infer_instance

instance decLargeTeam (cfg : Config) (d : Data) (s : Sol) :
    Decidable (largeTeamConstraints cfg d s) := by
  unfold largeTeamConstraints; infer_instance

instance decSameAddr (cfg : Config) (d : Data) (s : Sol) :
    Decidable (sameAddrChefCap cfg d s) := by
  unfold sameAddrChefCap; infer_instance

instance decFeasible (cfg : Config) (d : Data) (s : Sol) :
    Decidable (Feasible cfg d s) := by
  unfold Feasible; infer_instance

/-- Python max of a nonempty list (0 for the empty list, which the source
never evaluates). -/
def pyMax : List ℚ → ℚ
  | [] => 0
  | x :: xs => xs.foldl max x

/-- All preference entries in source iteration order
(for t in teams for c in courses). -/
def prefEntries (cfg : Config) (d : Data) : List ℚ :=
  (List.range d.nTeams).flatMap fun t =>
    (List.range cfg.numCourses).map fun c => d.pref t c

/-- Source: max_pref — 0 when preferences are ignored, otherwise the
maximum preference value over all teams and courses. -/
def max_pref (cfg : Config) (d : Data) : ℚ :=
  if cfg.ignorePreferences then 0 else pyMax (prefEntries cfg d)

/-- Source: preferences — the objective term summing, over every (t, g, c)
whose preference value is above the forbidden sentinel, the chef
indicator weighted by the preference value divided by max_pref. -/
def preferences (cfg : Config) (d : Data) (s : Sol) : ℚ :=
  if cfg.ignorePreferences then 0 else
    ∑ t ∈ Finset.range d.nTeams, ∑ g ∈ Finset.range (numGroups cfg d),
      ∑ c ∈ Finset.range cfg.numCourses,
        if -1000 < d.pref t c then
          bq (s.chef t g c) * d.pref t c / max_pref cfg d
        else 0

/-- Source: distance_sum — 0 when ignore-avg-dist, otherwise the total
routed distance over all teams, afterparty leg included. -/
def distance_sum (cfg : Config) (d : Data) (s : Sol) : ℚ :=
  if cfg.ignoreAvgDist then 0 else
    ∑ t ∈ Finset.range d.nTeams, teamTravel cfg d s t

/-- Source objective: maxDuration (unless ignored) plus the weighted
average distance minus twenty times the preferences term. -/
def objective (cfg : Config) (d : Data) (s : Sol) : ℚ :=
  (if cfg.ignoreMaxDist then 0 else s.maxDuration) +
    (1 / 10) * ((1 / (d.nTeams : ℚ)) * distance_sum cfg d s) -
    20 * preferences cfg d s

/-- One entry of the group view decoder: the cook of a group, if any, and
the guests in the order they were appended. -/
structure GroupRoster where
  cook : Option ℕ
  guests : List ℕ
deriving DecidableEq

/-- Source group view decoder for one (course, group): scan the teams in
order; an assigned team with the chef indicator overwrites cook, an
assigned team without it is appended to the guests. -/
def decodeGroup (d : Data) (s : Sol) (c g : ℕ) : GroupRoster :=
  (List.range d.nTeams).foldl
    (fun acc t =>
      if s.assignment t g c = true then
        if s.chef t g c = true then { cook := some t, guests := acc.guests }
        else { cook := acc.cook, guests := acc.guests ++ [t] }
      else acc)
    { cook := none, guests := [] }

/-- Number of teams of a (course, group) carrying both the assignment and
the chef indicator, the quantity the specification says the decoder
validates to be one. -/
def chefIndicatorCount (d : Data) (s : Sol) (c g : ℕ) : ℕ :=
  ∑ t ∈ Finset.range d.nTeams, bn (s.assignment t g c && s.chef t g c)

/-- One travel leg of the team view decoder.  The source appends the
duration, the group and the course (gang) of every active arc; origin and
destination are kept here as well to state the chaining property. -/
structure TourLeg where
  gang : ℕ
  origin : ℕ
  dest : ℕ
  group : ℕ
  approx_duration : ℚ
deriving DecidableEq

/-- The legs the team view decoder appends for team t in course c, in the
iteration order of the source (for i in teams, for j in teams,
for g in groups, append when the arc is active). -/
def legsOfCourse (cfg : Config) (d : Data) (s : Sol) (t c : ℕ) : List TourLeg :=
  (List.range d.nTeams).flatMap fun i =>
    (List.range d.nTeams).flatMap fun j =>
      ((List.range (numGroups cfg d)).filter fun g => s.arc c i j t g).map
        fun g => ⟨c, i, j, g, d.distance_matrix i j c⟩

/-- Source team view decoder: the tour of team t, legs appended course by
course. -/
def decodeTour (cfg : Config) (d : Data) (s : Sol) (t : ℕ) : List TourLeg :=
  (List.range cfg.numCourses).flatMap fun c => legsOfCourse cfg d s t c

/-- The afterparty durations the decoder records for team t: one entry per
active arc of the last course (the source sets afterparty_duration once
per such arc). -/
def afterpartyEntries (cfg : Config) (d : Data) (s : Sol) (t : ℕ) : List ℚ :=
  (legsOfCourse cfg d s t (cfg.numCourses - 1)).map fun l =>
    d.afterparty_dist l.dest

/-- One raw input row of the CSV after splitting: the address id and the
per-course preference scores (name, telephone and diet do not influence
the model). -/
structure TeamRow where
  addr : ℕ
  pref : ℕ → ℚ

/-- The raw parsed CSV: the number of header fields and the data rows. -/
structure RawInput where
  headerLen : ℕ
  rows : List TeamRow

/-- Fatal errors of the input pipeline, in the order the source can raise
them: malformed header, team count not divisible by course count, a
failure of the distance provider on an inter-team route, a failure on an
afterparty route. -/
inductive PipelineError where
  | malformedHeader : PipelineError
  | notDivisible : PipelineError
  | distanceFailure (i j c : ℕ) : PipelineError
  | afterpartyFailure (t : ℕ) : PipelineError
deriving DecidableEq

/-- itertools.combinations(range n, 2) in iteration order. -/
def combPairs (n : ℕ) : List (ℕ × ℕ) :=
  (List.range n).flatMap fun i =>
    (List.range n).flatMap fun j => if i < j then [(i, j)] else []

/-- itertools.permutations(range n, 2) in iteration order. -/
def permPairs (n : ℕ) : List (ℕ × ℕ) :=
  (List.range n).flatMap fun i =>
    (List.range n).flatMap fun j => if i ≠ j then [(i, j)] else []

/-- The inter-team routes the source resolves: ordered pairs when
distances are asymmetric, index-ordered pairs otherwise. -/
def requiredPairs (asym : Bool) (n : ℕ) : List (ℕ × ℕ) :=
  if asym then permPairs n else combPairs n

/-- First failing provider lookup over the required pairs and courses, in
source iteration order (for each pair, for each course). -/
def findDistanceFailure (engine : ℕ → ℕ → ℕ → Option ℚ)
    (ps : List (ℕ × ℕ)) (numCourses : ℕ) : Option (ℕ × ℕ × ℕ) :=
  ps.findSome? fun p =>
    (List.range numCourses).findSome? fun c =>
      match engine p.1 p.2 c with
      | none => some (p.1, p.2, c)
      | some _ => none

/-- First failing afterparty lookup, in source iteration order. -/
def findAfterpartyFailure (afterEngine : ℕ → Option ℚ) (n : ℕ) : Option ℕ :=
  (List.range n).findSome? fun t =>
    match afterEngine t with
    | none => some t
    | some _ => none

/-- The distance matrix the source builds when every lookup succeeds:
self distances are 0, asymmetric distances are looked up directly, and
symmetric distances are looked up once for the index-ordered pair and
mirrored. -/
def mkDistanceMatrix (asym : Bool) (engine : ℕ → ℕ → ℕ → Option ℚ) :
    ℕ → ℕ → ℕ → ℚ :=
  fun i j c =>
    if i = j then 0
    else if asym then (engine i j c).getD 0
    else if i < j then (engine i j c).getD 0
    else (engine j i c).getD 0

/-- The input pipeline of the source in program order: header check,
divisibility check, inter-team distance resolution, afterparty distance
resolution, then the assembled data used to build the model.  Any error
aborts before the later stages run, so no model is built. -/
def runPipeline (cfg : Config) (input : RawInput)
    (engine : ℕ → ℕ → ℕ → Option ℚ) (afterEngine : ℕ → Option ℚ) :
    Except PipelineError Data :=
  if cfg.ignorePreferences = false ∧ input.headerLen ≠ 4 + cfg.numCourses then
    .error .malformedHeader
  else if cfg.ignorePreferences = true ∧ input.headerLen ≠ 4 ∧
      input.headerLen ≠ 4 + cfg.numCourses then
    .error .malformedHeader
  else if input.rows.length % cfg.numCourses ≠ 0 then
    .error .notDivisible
  else
    match findDistanceFailure engine
        (requiredPairs cfg.asymetricDistances input.rows.length)
        cfg.numCourses with
    | some (i, j, c) => .error (.distanceFailure i j c)
    | none =>
      if cfg.hasAfterparty = true then
        match findAfterpartyFailure afterEngine input.rows.length with
        | some t => .error (.afterpartyFailure t)
        | none =>
          .ok
            { nTeams := input.rows.length
              distance_matrix := mkDistanceMatrix cfg.asymetricDistances engine
              afterparty_dist := fun t => ((afterEngine t).getD 0)
              pref := fun t c => (((input.rows.get? t).map
                (fun r => r.pref c)).getD 0)
              addr := fun t => (((input.rows.get? t).map
                (fun r => r.addr)).getD 0) }
      else
        .ok
          { nTeams := input.rows.length
            distance_matrix := mkDistanceMatrix cfg.asymetricDistances engine
            afterparty_dist := fun _ => 0
            pref := fun t c => (((input.rows.get? t).map
              (fun r => r.pref c)).getD 0)
            addr := fun t => (((input.rows.get? t).map
              (fun r => r.addr)).getD 0) }

/-- The two header checks of the source pass. -/
def headerOK (cfg : Config) (input : RawInput) : Prop :=
  (cfg.ignorePreferences = false → input.headerLen = 4 + cfg.numCourses) ∧
  (cfg.ignorePreferences = true →
    (input.headerLen = 4 ∨ input.headerLen = 4 + cfg.numCourses))

instance decHeaderOK (cfg : Config) (input : RawInput) :
    Decidable (headerOK cfg input) := by
  unfold headerOK; infer_instance

/-- A model whose feasible region is empty: what the solver reports as
INFEASIBLE. -/
def modelInfeasible (cfg : Config) (d : Data) : Prop :=
  ∀ s : Sol, ¬ Feasible cfg d s

/-- Trivial one-team, one-course configuration used to instantiate
theorems with hypotheses; the minimum travel bound is 0 because the only
team never leaves its own address. -/
def cfg1 : Config := { numCourses := 1, minTravel := 0 }

/-- Data of the one-team instance. -/
def d1 : Data :=
  { nTeams := 1
    distance_matrix := fun _ _ _ => 0
    afterparty_dist := fun _ => 0
    pref := fun _ _ => 0
    addr := fun t => t }

/-- The unique solution of the one-team instance: the team is assigned to
the only group, cooks for itself and stays at home. -/
def s1 : Sol :=
  { assignment := fun _ _ _ => true
    chef := fun _ _ _ => true
    arc := fun _ _ _ _ _ => true
    maxDuration := 0
    largeTeam := fun _ => false }

/-- Three-team, three-course base configuration (one group per course);
teams may meet again since every course reunites all three teams. -/
def cfg3 : Config := { numCourses := 3, canMeetAgain := true }

/-- Three-team data whose first team carries the forbidden sentinel for
the first course; every inter-team distance is 10 minutes. -/
def d3 : Data :=
  { nTeams := 3
    distance_matrix := fun i j _ => if i = j then 0 else 10
    afterparty_dist := fun _ => 0
    pref := fun t c => if t = 0 ∧ c = 0 then -2000 else 1
    addr := fun t => t }

/-- Rotation for the three-team instance: team c cooks course c, everyone
moves from the previous host to the next. -/
def s3 : Sol :=
  { assignment := fun _ g _ => g == 0
    chef := fun t g c => g == 0 && t == c
    arc := fun c i j t g =>
      g == 0 && j == c && i == (if c = 0 then t else c - 1)
    maxDuration := 30
    largeTeam := fun _ => false }

/-- Group of team t in course c for the six-team witness schedule. -/
def grp6 (c t : ℕ) : ℕ :=
  match c, t with
  | 1, 0 => 1
  | 1, 1 => 0
  | 1, 2 => 0
  | 1, 3 => 0
  | 1, 4 => 1
  | 1, 5 => 1
  | _, u => u / 3

/-- Chef of group g in course c for the six-team witness schedule. -/
def chef6 (c g : ℕ) : ℕ :=
  match c, g with
  | 0, 0 => 0
  | 0, 1 => 3
  | 1, 0 => 1
  | 1, 1 => 4
  | 2, 0 => 2
  | 2, 1 => 5
  | _, _ => 0

/-- Origin of the leg of team t in course c for the six-team schedule:
start at home, then at the previous host. -/
def origin6 (c t : ℕ) : ℕ := if c = 0 then t else chef6 (c - 1) (grp6 (c - 1) t)

/-- Six-team, three-course configuration with teams 0 and 1 configured as
cook incompatible; teams may meet again. -/
def cfg6 : Config :=
  { numCourses := 3, canMeetAgain := true, ignorePreferences := true
    cookIncompatible := [0, 1] }

/-- Six-team data: all inter-team distances are 10 minutes, no afterparty,
distinct addresses. -/
def d6 : Data :=
  { nTeams := 6
    distance_matrix := fun i j _ => if i = j then 0 else 10
    afterparty_dist := fun _ => 0
    pref := fun _ _ => 0
    addr := fun t => t }

/-- The six-team schedule as a model solution.  In course 0 team 0 cooks
for teams 1 and 2 — the direction the cook incompatibility constraint of
the source does not exclude. -/
def s6 : Sol :=
  { assignment := fun t g c => g == grp6 c t
    chef := fun t g c => g == grp6 c t && t == chef6 c g
    arc := fun c i j t g =>
      g == grp6 c t && i == origin6 c t && j == chef6 c (grp6 c t)
    maxDuration := 30
    largeTeam := fun _ => false }

/-- Group of team t in course c for the nine-team unique-meeting schedule:
rows of a 3 by 3 grid, then columns, then diagonals. -/
def grp9 (c t : ℕ) : ℕ :=
  match c with
  | 0 => t / 3
  | 1 => t % 3
  | _ => (t % 3 + 2 * (t / 3)) % 3

/-- Chef of group g in course c for the nine-team schedule. -/
def chef9 (c g : ℕ) : ℕ :=
  match c, g with
  | 0, 0 => 0
  | 0, 1 => 4
  | 0, 2 => 6
  | 1, 0 => 3
  | 1, 1 => 7
  | 1, 2 => 5
  | 2, 0 => 8
  | 2, 1 => 1
  | 2, 2 => 2
  | _, _ => 0

/-- Origin of the leg of team t in course c for the nine-team schedule. -/
def origin9 (c t : ℕ) : ℕ := if c = 0 then t else chef9 (c - 1) (grp9 (c - 1) t)

/-- Nine-team, three-course configuration with the unique meeting
constraint enabled. -/
def cfg9 : Config := { numCourses := 3, ignorePreferences := true }

/-- Nine-team data: all inter-team distances are 10 minutes, no
afterparty, distinct addresses. -/
def d9 : Data :=
  { nTeams := 9
    distance_matrix := fun i j _ => if i = j then 0 else 10
    afterparty_dist := fun _ => 0
    pref := fun _ _ => 0
    addr := fun t => t }

/-- The nine-team schedule as a model solution: no two teams ever share a
group twice. -/
def s9 : Sol :=
  { assignment := fun t g c => g == grp9 c t
    chef := fun t g c => g == grp9 c t && t == chef9 c g
    arc := fun c i j t g =>
      g == grp9 c t && i == origin9 c t && j == chef9 c (grp9 c t)
    maxDuration := 30
    largeTeam := fun _ => false }

/-- The configuration of the six-team scenario of the specification:
three courses, unique meeting enabled, preferences ignored, max distance
as the only objective term. -/
def cfg3c : Config :=
  { numCourses := 3, ignorePreferences := true, ignoreAvgDist := true }

/-- The data of the six-team scenario: every inter-team distance is 10
minutes, no afterparty, no shared addresses. -/
def d3c : Data :=
  { nTeams := 6
    distance_matrix := fun i j _ => if i = j then 0 else 10
    afterparty_dist := fun _ => 0
    pref := fun _ _ => 0
    addr := fun t => t }

theorem bn_eq_one_iff {b : Bool} : bn b = 1 ↔ b = true := by
  cases b <;> simp [bn]

theorem bn_eq_zero_iff {b : Bool} : bn b = 0 ↔ b = false := by
  cases b <;> simp [bn]

theorem bn_le_one (b : Bool) : bn b ≤ 1 := by
  cases b <;> simp [bn]

/-- A sum of naturals over a range equal to one has exactly one nonzero
term, and that term is one. -/
theorem sum_range_eq_one {n : ℕ} {f : ℕ → ℕ}
    (h : ∑ x ∈ Finset.range n, f x = 1) :
    ∃ a, a < n ∧ f a = 1 ∧ ∀ b, b < n → b ≠ a → f b = 0 := by
  have hne : ∑ x ∈ Finset.range n, f x ≠ 0 := by omega
  obtain ⟨a, haS, hfa⟩ := Finset.exists_ne_zero_of_sum_ne_zero hne
  have ha : a < n := Finset.mem_range.mp haS
  have hle : f a ≤ 1 := by
    have := Finset.single_le_sum (fun i _ => Nat.zero_le (f i)) haS
    omega
  have hfa1 : f a = 1 := by omega
  have hsplit : f a + ∑ x ∈ (Finset.range n).erase a, f x =
      ∑ x ∈ Finset.range n, f x := Finset.add_sum_erase _ f haS
  have hzero : ∑ x ∈ (Finset.range n).erase a, f x = 0 := by omega
  refine ⟨a, ha, hfa1, fun b hb hba => ?_⟩
  exact Finset.sum_eq_zero_iff.mp hzero b
    (Finset.mem_erase.mpr ⟨hba, Finset.mem_range.mpr hb⟩)

/-- Converse construction: a sum over a range with exactly one term equal
to one is one. -/
theorem sum_range_eq_one_of {n : ℕ} {f : ℕ → ℕ} (a : ℕ) (ha : a < n)
    (h1 : f a = 1) (h0 : ∀ b, b < n → b ≠ a → f b = 0) :
    ∑ x ∈ Finset.range n, f x = 1 := by
  rw [Finset.sum_eq_single a
    (fun b hb hba => h0 b (Finset.mem_range.mp hb) hba)
    (fun hna => absurd (Finset.mem_range.mpr ha) hna)]
  exact h1

/-- Length of a filtered range as a sum of indicators. -/
theorem filter_range_length (n : ℕ) (p : ℕ → Bool) :
    ((List.range n).filter p).length = ∑ x ∈ Finset.range n, bn (p x) := by
  induction n with
  | zero => simp
  | succ m ih =>
    rw [List.range_succ, List.filter_append, List.length_append,
      Finset.sum_range_succ, ih]
    cases hp : p m <;> simp [bn, hp]

/-- Length of a flatMap over a range as a sum of lengths. -/
theorem length_flatMap_range {α : Type} (n : ℕ) (f : ℕ → List α) :
    ((List.range n).flatMap f).length = ∑ x ∈ Finset.range n, (f x).length := by
  induction n with
  | zero => simp
  | succ m ih =>
    rw [List.range_succ, List.flatMap_append, List.length_append,
      Finset.sum_range_succ, ih]
    simp

/-- flatMap only depends on the values of the function on the list. -/
theorem flatMap_congr_mem {α β : Type} {l : List α} {f g : α → List β}
    (h : ∀ a ∈ l, f a = g a) : l.flatMap f = l.flatMap g := by
  induction l with
  | nil => rfl
  | cons x xs ih =>
    simp only [List.flatMap_cons]
    rw [h x (List.mem_cons_self x xs), ih fun a ha => h a (List.mem_cons_of_mem x ha)]

/-- In every feasible solution, every team has exactly one active arc in
every course: one triple (group, origin, destination) carries the
indicator and every other triple does not. -/
theorem unique_active_arc {cfg : Config} {d : Data} {s : Sol}
    (hA : assignOnePerCourse cfg d s) (hArc : arcIffAssigned cfg d s)
    {t c : ℕ} (ht : t < d.nTeams) (hc : c < cfg.numCourses) :
    ∃ g i j, g < numGroups cfg d ∧ i < d.nTeams ∧ j < d.nTeams ∧
      s.arc c i j t g = true ∧
      ∀ g2 i2 j2, g2 < numGroups cfg d → i2 < d.nTeams → j2 < d.nTeams →
        s.arc c i2 j2 t g2 = true → g2 = g ∧ i2 = i ∧ j2 = j := by
  obtain ⟨g0, hg0, hass1, hass0⟩ := sum_range_eq_one (hA t ht c hc)
  have hF1 : (∑ i ∈ Finset.range d.nTeams, ∑ j ∈ Finset.range d.nTeams,
      bn (s.arc c i j t g0)) = 1 := by
    rw [hArc t ht g0 hg0 c hc]; exact hass1
  obtain ⟨i0, hi0, hrow1, hrow0⟩ := sum_range_eq_one hF1
  obtain ⟨j0, hj0, harc1, harc0⟩ := sum_range_eq_one hrow1
  refine ⟨g0, i0, j0, hg0, hi0, hj0, bn_eq_one_iff.mp harc1,
    fun g2 i2 j2 hg2 hi2 hj2 h2 => ?_⟩
  by_cases hgg : g2 = g0
  · subst hgg
    by_cases hii : i2 = i0
    · subst hii
      by_cases hjj : j2 = j0
      · exact ⟨rfl, rfl, hjj⟩
      · exact absurd (bn_eq_zero_iff.mp (harc0 j2 hj2 hjj)) (by simp [h2])
    · have hzrow : (∑ j ∈ Finset.range d.nTeams, bn (s.arc c i2 j t g2)) = 0 :=
        hrow0 i2 hi2 hii
      have := Finset.sum_eq_zero_iff.mp hzrow j2 (Finset.mem_range.mpr hj2)
      exact absurd (bn_eq_zero_iff.mp this) (by simp [h2])
  · have hzg : (∑ i ∈ Finset.range d.nTeams, ∑ j ∈ Finset.range d.nTeams,
        bn (s.arc c i j t g2)) = 0 := by
      rw [hArc t ht g2 hg2 c hc]
      exact bn_eq_zero_iff.mpr (by
        cases hax : s.assignment t g2 c
        · rfl
        · exact absurd (hass0 g2 hg2 hgg)
            (by simp [bn, hax]))
    have hz1 := Finset.sum_eq_zero_iff.mp hzg i2 (Finset.mem_range.mpr hi2)
    have hz2 := Finset.sum_eq_zero_iff.mp hz1 j2 (Finset.mem_range.mpr hj2)
    exact absurd (bn_eq_zero_iff.mp hz2) (by simp [h2])

/-- In the first course every active arc of a team starts at the team
itself. -/
theorem course0_origin {cfg : Config} {d : Data} {s : Sol}
    (hArc : arcIffAssigned cfg d s) (hStart : startAtSelf cfg d s)
    {t i j g : ℕ} (ht : t < d.nTeams) (hg : g < numGroups cfg d)
    (hi : i < d.nTeams) (hj : j < d.nTeams) (h0K : 0 < cfg.numCourses)
    (ha : s.arc 0 i j t g = true) : i = t := by
  by_contra hit
  have htotal := hArc t ht g hg 0 h0K
  have hself := hStart t ht g hg
  have hsplit : (∑ j2 ∈ Finset.range d.nTeams, bn (s.arc 0 t j2 t g)) +
      ∑ i2 ∈ (Finset.range d.nTeams).erase t,
        (∑ j2 ∈ Finset.range d.nTeams, bn (s.arc 0 i2 j2 t g)) =
      ∑ i2 ∈ Finset.range d.nTeams,
        (∑ j2 ∈ Finset.range d.nTeams, bn (s.arc 0 i2 j2 t g)) :=
    Finset.add_sum_erase (Finset.range d.nTeams)
      (fun i2 => ∑ j2 ∈ Finset.range d.nTeams, bn (s.arc 0 i2 j2 t g))
      (Finset.mem_range.mpr ht)
  have hz : ∑ i2 ∈ (Finset.range d.nTeams).erase t,
      (∑ j2 ∈ Finset.range d.nTeams, bn (s.arc 0 i2 j2 t g)) = 0 := by
    omega
  have hzi := Finset.sum_eq_zero_iff.mp hz i
    (Finset.mem_erase.mpr ⟨hit, Finset.mem_range.mpr hi⟩)
  have hzj := Finset.sum_eq_zero_iff.mp hzi j (Finset.mem_range.mpr hj)
  exact absurd (bn_eq_zero_iff.mp hzj) (by simp [ha])

/-- Every active arc ends at the chef of its group and course. -/
theorem arc_dest_is_chef {cfg : Config} {d : Data} {s : Sol}
    (hGo : goOnlyToChef cfg d s)
    {t c i j g : ℕ} (hc : c < cfg.numCourses) (ht : t < d.nTeams)
    (hg : g < numGroups cfg d) (hi : i < d.nTeams) (hj : j < d.nTeams)
    (ha : s.arc c i j t g = true) : s.chef j g c = true := by
  have := hGo c hc t ht g hg i hi j hj
  rw [ha] at this
  cases hch : s.chef j g c
  · rw [hch] at this; simp [bn] at this
  · rfl

/-- Flow handoff: an active arc of a later course starts where the active
arc of the previous course ended, and moves to a different location. -/
theorem next_origin {cfg : Config} {d : Data} {s : Sol}
    (hA : assignOnePerCourse cfg d s) (hArc : arcIffAssigned cfg d s)
    (hLeave : leaveOnlyIfEntering cfg d s)
    {t c i j g i2 j2 g2 : ℕ} (ht : t < d.nTeams) (hc1 : c + 1 < cfg.numCourses)
    (hg : g < numGroups cfg d) (hi : i < d.nTeams) (hj : j < d.nTeams)
    (h1 : s.arc c i j t g = true)
    (h2 : s.arc (c + 1) i2 j2 t g2 = true)
    (hg2 : g2 < numGroups cfg d) (hi2 : i2 < d.nTeams) (hj2 : j2 < d.nTeams) :
    i2 = j ∧ j2 ≠ i2 := by
  have hbal := hLeave (c + 1) (Nat.le_add_left 1 c) hc1 t ht j hj
  rw [show c + 1 - 1 = c from rfl] at hbal
  have hRHS : 1 ≤ ∑ r ∈ Finset.range d.nTeams,
      ∑ g3 ∈ Finset.range (numGroups cfg d), bn (s.arc c r j t g3) := by
    have hterm : bn (s.arc c i j t g) = 1 := bn_eq_one_iff.mpr h1
    have hinner : bn (s.arc c i j t g) ≤
        ∑ g3 ∈ Finset.range (numGroups cfg d), bn (s.arc c i j t g3) :=
      Finset.single_le_sum (f := fun g3 => bn (s.arc c i j t g3))
        (fun x _ => Nat.zero_le _) (Finset.mem_range.mpr hg)
    have houter : (∑ g3 ∈ Finset.range (numGroups cfg d), bn (s.arc c i j t g3)) ≤
        ∑ r ∈ Finset.range d.nTeams,
          ∑ g3 ∈ Finset.range (numGroups cfg d), bn (s.arc c r j t g3) :=
      Finset.single_le_sum
        (f := fun r => ∑ g3 ∈ Finset.range (numGroups cfg d), bn (s.arc c r j t g3))
        (fun x _ => Nat.zero_le _) (Finset.mem_range.mpr hi)
    omega
  have hLHS : (∑ j3 ∈ Finset.range d.nTeams,
      ∑ g3 ∈ Finset.range (numGroups cfg d),
        if j3 = j then 0 else bn (s.arc (c + 1) j j3 t g3)) ≠ 0 := by
    omega
  obtain ⟨j3, hj3mem, hj3ne⟩ := Finset.exists_ne_zero_of_sum_ne_zero hLHS
  obtain ⟨g3, hg3mem, hg3ne⟩ := Finset.exists_ne_zero_of_sum_ne_zero hj3ne
  by_cases hjj : j3 = j
  · simp [hjj] at hg3ne
  · rw [if_neg hjj] at hg3ne
    have harc3 : s.arc (c + 1) j j3 t g3 = true := by
      cases hx : s.arc (c + 1) j j3 t g3
      · rw [hx] at hg3ne; simp [bn] at hg3ne
      · rfl
    obtain ⟨g4, i4, j4, hg4, hi4, hj4, h4, huniq⟩ :=
      unique_active_arc hA hArc ht hc1
    obtain ⟨e1, e2, e3⟩ := huniq g3 j j3 (Finset.mem_range.mp hg3mem) hj
      (Finset.mem_range.mp hj3mem) harc3
    obtain ⟨f1, f2, f3⟩ := huniq g2 i2 j2 hg2 hi2 hj2 h2
    constructor
    · rw [f2, ← e2]
    · rw [f3, ← e3, f2, ← e2]
      exact fun hcon => hjj hcon

/-- flatMap of singletons is the identity. -/
theorem flatMap_pure {α : Type} (l : List α) : (l.flatMap fun x => [x]) = l := by
  induction l with
  | nil => rfl
  | cons x xs ih => simp only [List.flatMap_cons, ih, List.singleton_append]

/-- Membership in the decoded legs of one course. -/
theorem mem_legsOfCourse {cfg : Config} {d : Data} {s : Sol} {t c : ℕ}
    {l : TourLeg} :
    l ∈ legsOfCourse cfg d s t c ↔
      ∃ i j g, i < d.nTeams ∧ j < d.nTeams ∧ g < numGroups cfg d ∧
        s.arc c i j t g = true ∧
        l = ⟨c, i, j, g, d.distance_matrix i j c⟩ := by
  unfold legsOfCourse
  simp only [List.mem_flatMap, List.mem_map, List.mem_filter, List.mem_range]
  constructor
  · rintro ⟨i, hi, j, hj, g, ⟨hg, harc⟩, hl⟩
    exact ⟨i, j, g, hi, hj, hg, harc, hl.symm⟩
  · rintro ⟨i, j, g, hi, hj, hg, harc, hl⟩
    exact ⟨i, hi, j, hj, g, ⟨hg, harc⟩, hl.symm⟩

/-- Length of the decoded legs of one course as a sum of arc
indicators. -/
theorem legsOfCourse_length {cfg : Config} {d : Data} {s : Sol} {t c : ℕ} :
    (legsOfCourse cfg d s t c).length =
      ∑ i ∈ Finset.range d.nTeams, ∑ j ∈ Finset.range d.nTeams,
        ∑ g ∈ Finset.range (numGroups cfg d), bn (s.arc c i j t g) := by
  unfold legsOfCourse
  rw [length_flatMap_range]
  refine Finset.sum_congr rfl fun i _ => ?_
  rw [length_flatMap_range]
  refine Finset.sum_congr rfl fun j _ => ?_
  rw [List.length_map, filter_range_length]

/-- Under the coverage and arc constraints the decoded legs of a course
form a single leg, the unique active arc. -/
theorem legsOfCourse_eq_singleton {cfg : Config} {d : Data} {s : Sol}
    {t c g0 i0 j0 : ℕ} (hg0 : g0 < numGroups cfg d) (hi0 : i0 < d.nTeams)
    (hj0 : j0 < d.nTeams) (harc : s.arc c i0 j0 t g0 = true)
    (huniq : ∀ g2 i2 j2, g2 < numGroups cfg d → i2 < d.nTeams →
      j2 < d.nTeams → s.arc c i2 j2 t g2 = true →
        g2 = g0 ∧ i2 = i0 ∧ j2 = j0) :
    legsOfCourse cfg d s t c =
      [⟨c, i0, j0, g0, d.distance_matrix i0 j0 c⟩] := by
  have hzero : ∀ i j, i < d.nTeams → j < d.nTeams → ¬(i = i0 ∧ j = j0) →
      (∑ g ∈ Finset.range (numGroups cfg d), bn (s.arc c i j t g)) = 0 := by
    intro i j hi hj hne
    refine Finset.sum_eq_zero fun g hgm => ?_
    refine bn_eq_zero_iff.mpr ?_
    cases hx : s.arc c i j t g
    · rfl
    · obtain ⟨_, e2, e3⟩ := huniq g i j (Finset.mem_range.mp hgm) hi hj hx
      exact absurd ⟨e2, e3⟩ hne
  have hlen : (legsOfCourse cfg d s t c).length = 1 := by
    rw [legsOfCourse_length]
    refine sum_range_eq_one_of i0 hi0 ?_ ?_
    · refine sum_range_eq_one_of j0 hj0 ?_ ?_
      · refine sum_range_eq_one_of g0 hg0 (bn_eq_one_iff.mpr harc) ?_
        intro g hgn hgne
        refine bn_eq_zero_iff.mpr ?_
        cases hx : s.arc c i0 j0 t g
        · rfl
        · obtain ⟨e1, _, _⟩ := huniq g i0 j0 hgn hi0 hj0 hx
          exact absurd e1 hgne
      · intro j hj hjne
        exact hzero i0 j hi0 hj fun hh => hjne hh.2
    · intro i hi hine
      refine Finset.sum_eq_zero fun j hjm => ?_
      exact hzero i j hi (Finset.mem_range.mp hjm) fun hh => hine hh.1
  obtain ⟨a, ha⟩ := List.length_eq_one.mp hlen
  have hmem : (⟨c, i0, j0, g0, d.distance_matrix i0 j0 c⟩ : TourLeg) ∈
      legsOfCourse cfg d s t c :=
    mem_legsOfCourse.mpr ⟨i0, j0, g0, hi0, hj0, hg0, harc, rfl⟩
  rw [ha] at hmem ⊢
  rw [List.mem_singleton.mp hmem]

/-- C2: for every feasible solution and every team, the decoded itinerary
contains exactly numCourses travel legs, one per course in course order,
consecutive legs chain (the origin of the leg of course c + 1 is the
destination of the leg of course c, which is the chef location of its
group), and exactly one terminal afterparty entry is recorded. -/
theorem C2_thm (cfg : Config) (d : Data) (s : Sol) (hF : Feasible cfg d s)
    (t : ℕ) (ht : t < d.nTeams) :
    (decodeTour cfg d s t).length = cfg.numCourses ∧
    (decodeTour cfg d s t).map TourLeg.gang = List.range cfg.numCourses ∧
    (∀ l1 ∈ decodeTour cfg d s t, ∀ l2 ∈ decodeTour cfg d s t,
      l2.gang = l1.gang + 1 → l2.origin = l1.dest) ∧
    (∀ l ∈ decodeTour cfg d s t, s.chef l.dest l.group l.gang = true) ∧
    (afterpartyEntries cfg d s t).length = 1 := by
  obtain ⟨hA, hG, hM, hFb, hOne, hOnce, hCA, hArc, hStart, hGo, hLeave,
    hMD0, hMax, hMin, hStay, hCook, hLarge, hAddr⟩ := hF
  have hK : 0 < cfg.numCourses := by
    by_contra hk
    have hk0 : cfg.numCourses = 0 := by omega
    have hG0 : numGroups cfg d = 0 := by
      unfold numGroups; rw [hk0]; exact Nat.div_zero d.nTeams
    have := hOnce t ht
    rw [hG0] at this
    simp at this
  have huniq : ∀ c, c < cfg.numCourses → ∃ g i j,
      g < numGroups cfg d ∧ i < d.nTeams ∧ j < d.nTeams ∧
      s.arc c i j t g = true ∧
      ∀ g2 i2 j2, g2 < numGroups cfg d → i2 < d.nTeams → j2 < d.nTeams →
        s.arc c i2 j2 t g2 = true → g2 = g ∧ i2 = i ∧ j2 = j :=
    fun c hc => unique_active_arc hA hArc ht hc
  choose gf mi mj hgf hmi hmj harcf huf using huniq
  have hlegs : ∀ c (hc : c < cfg.numCourses),
      legsOfCourse cfg d s t c =
        [⟨c, mi c hc, mj c hc, gf c hc,
          d.distance_matrix (mi c hc) (mj c hc) c⟩] :=
    fun c hc => legsOfCourse_eq_singleton (hgf c hc) (hmi c hc) (hmj c hc)
      (harcf c hc) (huf c hc)
  have hmemleg : ∀ l ∈ decodeTour cfg d s t, ∃ hc : l.gang < cfg.numCourses,
      l = ⟨l.gang, mi l.gang hc, mj l.gang hc, gf l.gang hc,
        d.distance_matrix (mi l.gang hc) (mj l.gang hc) l.gang⟩ := by
    intro l hl
    obtain ⟨c, hcm, hlc⟩ := List.mem_flatMap.mp hl
    have hc : c < cfg.numCourses := List.mem_range.mp hcm
    rw [hlegs c hc] at hlc
    have hleq := List.mem_singleton.mp hlc
    have hgang : l.gang = c := by rw [hleq]
    subst hgang
    exact ⟨hc, hleq⟩
  refine ⟨?_, ?_, ?_, ?_, ?_⟩
  · unfold decodeTour
    rw [length_flatMap_range]
    have hone : ∀ c ∈ Finset.range cfg.numCourses,
        (legsOfCourse cfg d s t c).length = 1 := by
      intro c hcm
      rw [hlegs c (Finset.mem_range.mp hcm)]
      rfl
    rw [Finset.sum_congr rfl hone]
    simp
  · unfold decodeTour
    rw [List.map_flatMap]
    have hmap : ∀ c ∈ List.range cfg.numCourses,
        (legsOfCourse cfg d s t c).map TourLeg.gang = [c] := by
      intro c hcm
      rw [hlegs c (List.mem_range.mp hcm)]
      rfl
    rw [flatMap_congr_mem hmap]
    exact flatMap_pure (List.range cfg.numCourses)
  · intro l1 hl1 l2 hl2 hgg
    obtain ⟨hc1, he1⟩ := hmemleg l1 hl1
    obtain ⟨hc2, he2⟩ := hmemleg l2 hl2
    have hc1s : l1.gang + 1 < cfg.numCourses := by rw [← hgg]; exact hc2
    have ho2 : l2.origin = mi l2.gang hc2 := congrArg TourLeg.origin he2
    have hd2 : l2.dest = mj l2.gang hc2 := congrArg TourLeg.dest he2
    have hgr2 : l2.group = gf l2.gang hc2 := congrArg TourLeg.group he2
    have hd1 : l1.dest = mj l1.gang hc1 := congrArg TourLeg.dest he1
    have ha2 : s.arc (l1.gang + 1) l2.origin l2.dest t l2.group = true := by
      rw [ho2, hd2, hgr2, ← hgg]
      exact harcf l2.gang hc2
    have hchain := next_origin hA hArc hLeave ht hc1s
      (hgf l1.gang hc1) (hmi l1.gang hc1) (hmj l1.gang hc1)
      (harcf l1.gang hc1) ha2
      (by rw [hgr2]; exact hgf l2.gang hc2)
      (by rw [ho2]; exact hmi l2.gang hc2)
      (by rw [hd2]; exact hmj l2.gang hc2)
    rw [hd1]
    exact hchain.1
  · intro l hl
    obtain ⟨hc, he⟩ := hmemleg l hl
    have hdd : l.dest = mj l.gang hc := congrArg TourLeg.dest he
    have hgr : l.group = gf l.gang hc := congrArg TourLeg.group he
    rw [hdd, hgr]
    exact arc_dest_is_chef hGo hc ht (hgf l.gang hc) (hmi l.gang hc)
      (hmj l.gang hc) (harcf l.gang hc)
  · unfold afterpartyEntries
    rw [List.length_map, hlegs (cfg.numCourses - 1) (by omega)]
    rfl

/-- C5: with unique meeting enabled the model carries the four-indicator
inequality for every ordered pair of courses, groups and teams, and
consequently no unordered pair of distinct teams shares a group in two
distinct courses. -/
theorem C5_thm (cfg : Config) (d : Data) (s : Sol) (hF : Feasible cfg d s)
    (hflag : cfg.canMeetAgain = false) :
    meetOnlyOnce cfg d s ∧
    (∀ t1, t1 < d.nTeams → ∀ t2, t2 < d.nTeams → t1 ≠ t2 →
      ∀ c1, c1 < cfg.numCourses → ∀ c2, c2 < cfg.numCourses → c1 ≠ c2 →
        ∀ g1, g1 < numGroups cfg d → ∀ g2, g2 < numGroups cfg d →
          ¬(s.assignment t1 g1 c1 = true ∧ s.assignment t2 g1 c1 = true ∧
            s.assignment t1 g2 c2 = true ∧ s.assignment t2 g2 c2 = true)) := by
  obtain ⟨hA, hG, hM, hFb, hOne, hOnce, hCA, hArc, hStart, hGo, hLeave,
    hMD0, hMax, hMin, hStay, hCook, hLarge, hAddr⟩ := hF
  have hMeet := hM hflag
  refine ⟨hMeet, ?_⟩
  intro t1 ht1 t2 ht2 htne c1 hc1 c2 hc2 hcne g1 hg1 g2 hg2
  rintro ⟨h1, h2, h3, h4⟩
  rcases lt_trichotomy t1 t2 with htlt | hteq | htgt
  · rcases lt_trichotomy c1 c2 with hclt | hceq | hcgt
    · have := hMeet c1 hc1 c2 hc2 hclt g1 hg1 g2 hg2 t1 ht1 t2 ht2 htlt
      simp [bn, h1, h2, h3, h4] at this
    · exact hcne hceq
    · have := hMeet c2 hc2 c1 hc1 hcgt g2 hg2 g1 hg1 t1 ht1 t2 ht2 htlt
      simp [bn, h1, h2, h3, h4] at this
  · exact htne hteq
  · rcases lt_trichotomy c1 c2 with hclt | hceq | hcgt
    · have := hMeet c1 hc1 c2 hc2 hclt g1 hg1 g2 hg2 t2 ht2 t1 ht1 htgt
      simp [bn, h1, h2, h3, h4] at this
    · exact hcne hceq
    · have := hMeet c2 hc2 c1 hc1 hcgt g2 hg2 g1 hg1 t2 ht2 t1 ht1 htgt
      simp [bn, h1, h2, h3, h4] at this

/-- C1 amended: when no preference entry is at the forbidden sentinel, the
models built with and without preference weighting have the same feasible
region; the only guarded constraint family, the sentinel chef exclusion,
is then vacuous. -/
theorem C1_thm (cfg : Config) (d : Data) (s : Sol)
    (hsent : ∀ t, t < d.nTeams → ∀ c, c < cfg.numCourses →
      -1000 < d.pref t c) :
    Feasible { cfg with ignorePreferences := true } d s ↔
    Feasible { cfg with ignorePreferences := false } d s := by
  constructor
  · rintro ⟨h1, h2, h3, h4, h5, h6, h7, h8, h9, h10, h11, h12, h13, h14,
      h15, h16, h17, h18⟩
    refine ⟨h1, h2, h3, ?_, h5, h6, h7, h8, h9, h10, h11, h12, h13, h14,
      h15, h16, h17, h18⟩
    intro _ t ht c hc hple g hg
    exact absurd hple (not_le.mpr (hsent t ht c hc))
  · rintro ⟨h1, h2, h3, h4, h5, h6, h7, h8, h9, h10, h11, h12, h13, h14,
      h15, h16, h17, h18⟩
    refine ⟨h1, h2, h3, ?_, h5, h6, h7, h8, h9, h10, h11, h12, h13, h14,
      h15, h16, h17, h18⟩
    intro hx
    exact nomatch hx

/-- A sum of Boolean indicators over a range is the cardinality of the
satisfying subset. -/
theorem sum_bn_eq_card (n : ℕ) (f : ℕ → Bool) :
    (∑ x ∈ Finset.range n, bn (f x)) =
      ((Finset.range n).filter (fun x => f x = true)).card := by
  have h := Finset.sum_boole (fun x => f x = true) (Finset.range n) (α := ℕ)
  rw [Nat.cast_id] at h
  rw [← h]
  exact Finset.sum_congr rfl fun x _ => by unfold bn; rfl

/-- With 6 teams and 3 courses every group must hold 3 teams, so a team
accumulates 6 groupmate slots over the event while only 5 other teams
exist; some pair must meet twice, violating the unique meeting
constraints.  The six-team scenario model is therefore infeasible. -/
theorem c3_no_feasible (s : Sol) (hF : Feasible cfg3c d3c s) : False := by
  obtain ⟨hA, hG, hM, hFb, hOne, hOnce, hCA, hArc, hStart, hGo, hLeave,
    hMD0, hMax, hMin, hStay, hCook, hLarge, hAddr⟩ := hF
  have hMeet := hM rfl
  have e1 : cfg3c.numCourses = 3 := rfl
  have e2 : numGroups cfg3c d3c = 2 := rfl
  have e3 : d3c.nTeams = 6 := rfl
  simp only [assignOnePerCourse, groupSizeEqCourses, meetOnlyOnce,
    e1, e2, e3] at hA hG hMeet
  have hsel : ∀ c, c < 3 → ∃ g, g < 2 ∧ s.assignment 0 g c = true := by
    intro c hc
    obtain ⟨g, hg, h1, _⟩ := sum_range_eq_one (hA 0 (by omega) c hc)
    exact ⟨g, hg, bn_eq_one_iff.mp h1⟩
  obtain ⟨g0, hg0, ha0⟩ := hsel 0 (by omega)
  obtain ⟨g1, hg1, ha1⟩ := hsel 1 (by omega)
  obtain ⟨g2, hg2, ha2⟩ := hsel 2 (by omega)
  have hcard : ∀ c g, c < 3 → g < 2 → s.assignment 0 g c = true →
      ((((Finset.range 6).filter
        (fun u => s.assignment u g c = true))).erase 0).card = 2 := by
    intro c g hc hg ha
    have hsum := hG g hg c hc
    rw [sum_bn_eq_card] at hsum
    have hmem : (0 : ℕ) ∈ (Finset.range 6).filter
        (fun u => s.assignment u g c = true) :=
      Finset.mem_filter.mpr ⟨Finset.mem_range.mpr (by omega), ha⟩
    rw [Finset.card_erase_of_mem hmem, hsum]
  have hP0 := hcard 0 g0 (by omega) hg0 ha0
  have hP1 := hcard 1 g1 (by omega) hg1 ha1
  have hP2 := hcard 2 g2 (by omega) hg2 ha2
  have hsub : ∀ c g, (((Finset.range 6).filter
      (fun u => s.assignment u g c = true)).erase 0) ⊆
      (Finset.range 6).erase 0 :=
    fun c g => Finset.erase_subset_erase 0 (Finset.filter_subset _ _)
  have hviol : ∀ cA cB gA gB p, cA < 3 → cB < 3 → cA < cB → gA < 2 →
      gB < 2 → p ≠ 0 → p < 6 →
      s.assignment 0 gA cA = true → s.assignment p gA cA = true →
      s.assignment 0 gB cB = true → s.assignment p gB cB = true → False := by
    intro cA cB gA gB p hcA hcB hAB hgA hgB hp0 hp6 x1 x2 x3 x4
    have := hMeet cA hcA cB hcB hAB gA hgA gB hgB 0 (by omega) p hp6
      (by omega)
    simp [bn, x1, x2, x3, x4] at this
  have hmemP : ∀ c g p, p ∈ (((Finset.range 6).filter
      (fun u => s.assignment u g c = true)).erase 0) →
      p ≠ 0 ∧ p < 6 ∧ s.assignment p g c = true := by
    intro c g p hp
    obtain ⟨hne, hfil⟩ := Finset.mem_erase.mp hp
    obtain ⟨hrange, hass⟩ := Finset.mem_filter.mp hfil
    exact ⟨hne, Finset.mem_range.mp hrange, hass⟩
  by_cases h01 : Disjoint
      (((Finset.range 6).filter (fun u => s.assignment u g0 0 = true)).erase 0)
      (((Finset.range 6).filter (fun u => s.assignment u g1 1 = true)).erase 0)
  · by_cases h02 : Disjoint
        (((Finset.range 6).filter (fun u => s.assignment u g0 0 = true)).erase 0)
        (((Finset.range 6).filter (fun u => s.assignment u g2 2 = true)).erase 0)
    · by_cases h12 : Disjoint
          (((Finset.range 6).filter (fun u => s.assignment u g1 1 = true)).erase 0)
          (((Finset.range 6).filter (fun u => s.assignment u g2 2 = true)).erase 0)
      · have hdisj2 : Disjoint
            ((((Finset.range 6).filter (fun u => s.assignment u g0 0 = true)).erase 0) ∪
              (((Finset.range 6).filter (fun u => s.assignment u g1 1 = true)).erase 0))
            (((Finset.range 6).filter (fun u => s.assignment u g2 2 = true)).erase 0) :=
          Finset.disjoint_union_left.mpr ⟨h02, h12⟩
        have hu : ((((Finset.range 6).filter (fun u => s.assignment u g0 0 = true)).erase 0) ∪
            (((Finset.range 6).filter (fun u => s.assignment u g1 1 = true)).erase 0) ∪
            (((Finset.range 6).filter (fun u => s.assignment u g2 2 = true)).erase 0)).card = 6 := by
          rw [Finset.card_union_of_disjoint hdisj2,
            Finset.card_union_of_disjoint h01, hP0, hP1, hP2]
        have hle : ((((Finset.range 6).filter (fun u => s.assignment u g0 0 = true)).erase 0) ∪
            (((Finset.range 6).filter (fun u => s.assignment u g1 1 = true)).erase 0) ∪
            (((Finset.range 6).filter (fun u => s.assignment u g2 2 = true)).erase 0)).card ≤ 5 := by
          have hsubU := Finset.union_subset
            (Finset.union_subset (hsub 0 g0) (hsub 1 g1)) (hsub 2 g2)
          have hcount : ((Finset.range 6).erase 0).card = 5 := by decide
          have := Finset.card_le_card hsubU
          omega
        omega
      · obtain ⟨p, hpa, hpb⟩ := Finset.not_disjoint_iff.mp h12
        obtain ⟨hp0, hp6, hx2⟩ := hmemP 1 g1 p hpa
        obtain ⟨_, _, hx4⟩ := hmemP 2 g2 p hpb
        exact hviol 1 2 g1 g2 p (by omega) (by omega) (by omega) hg1 hg2
          hp0 hp6 ha1 hx2 ha2 hx4
    · obtain ⟨p, hpa, hpb⟩ := Finset.not_disjoint_iff.mp h02
      obtain ⟨hp0, hp6, hx2⟩ := hmemP 0 g0 p hpa
      obtain ⟨_, _, hx4⟩ := hmemP 2 g2 p hpb
      exact hviol 0 2 g0 g2 p (by omega) (by omega) (by omega) hg0 hg2
        hp0 hp6 ha0 hx2 ha2 hx4
  · obtain ⟨p, hpa, hpb⟩ := Finset.not_disjoint_iff.mp h01
    obtain ⟨hp0, hp6, hx2⟩ := hmemP 0 g0 p hpa
    obtain ⟨_, _, hx4⟩ := hmemP 1 g1 p hpb
    exact hviol 0 1 g0 g1 p (by omega) (by omega) (by omega) hg0 hg1
      hp0 hp6 ha0 hx2 ha1 hx4

/-- The property the specification predicts for the six-team scenario: a
feasible (reported optimal) solution in which every group of every course
has exactly three members and the maximal total travel duration over all
teams is 20 minutes. -/
def c3ScenarioClaim : Prop :=
  ∃ s : Sol, Feasible cfg3c d3c s ∧
    (∀ g, g < 2 → ∀ c, c < 3 →
      (∑ t ∈ Finset.range 6, bn (s.assignment t g c)) = 3) ∧
    (∀ t, t < 6 → teamTravel cfg3c d3c s t ≤ 20) ∧
    (∃ t, t < 6 ∧ teamTravel cfg3c d3c s t = 20)

/-- C3 counterexample: the six-team scenario admits no feasible solution
at all, so it cannot return OPTIMAL with groups of three and a maximal
travel of 20 minutes. -/
theorem C3_cex : c3ScenarioClaim = False :=
  eq_false fun h => h.elim fun s hs => c3_no_feasible s hs.1

/-- C3 amended: the six-team scenario is infeasible, the solver reports
INFEASIBLE rather than OPTIMAL. -/
theorem C3_thm : modelInfeasible cfg3c d3c :=
  fun s hF => c3_no_feasible s hF

/-- The group view fold of the source characterised in closed form: the
recorded cook is the last team of the scan carrying both indicators (the
fold overwrites), appended guests are the assigned teams without the chef
indicator. -/
theorem decodeGroup_foldl (s : Sol) (c g : ℕ) (l : List ℕ)
    (acc : GroupRoster) :
    l.foldl
      (fun acc t =>
        if s.assignment t g c = true then
          if s.chef t g c = true then { cook := some t, guests := acc.guests }
          else { cook := acc.cook, guests := acc.guests ++ [t] }
        else acc) acc =
    { cook := ((l.filter fun t => s.assignment t g c && s.chef t g c).getLast?).or
        acc.cook
      guests := acc.guests ++
        (l.filter fun t => s.assignment t g c && !s.chef t g c) } := by
  induction l generalizing acc with
  | nil => simp
  | cons x xs ih =>
    rw [List.foldl_cons, List.filter_cons, List.filter_cons]
    by_cases hax : s.assignment x g c = true
    · by_cases hchx : s.chef x g c = true
      · rw [if_pos hax, if_pos hchx, ih]
        simp only [hax, hchx, Bool.and_self, Bool.not_true, Bool.and_false,
          Bool.false_eq_true, if_true, if_false]
        refine congrArg₂ GroupRoster.mk ?_ rfl
        cases hxs : xs.filter fun t => s.assignment t g c && s.chef t g c with
        | nil => rfl
        | cons y ys =>
          rw [List.getLast?_cons_cons]
          cases hz : (y :: ys).getLast? with
          | none => exact List.noConfusion (List.getLast?_eq_none_iff.mp hz)
          | some z => rfl
      · have hchx2 : s.chef x g c = false := by
          cases hv : s.chef x g c
          · rfl
          · exact absurd hv hchx
        rw [if_pos hax, if_neg hchx, ih]
        simp only [hax, hchx2, Bool.and_false, Bool.not_false, Bool.and_true,
          Bool.false_eq_true, if_false, if_true]
        refine congrArg₂ GroupRoster.mk rfl ?_
        rw [List.append_assoc, List.singleton_append]
    · have hax2 : s.assignment x g c = false := by
        cases hv : s.assignment x g c
        · rfl
        · exact absurd hv hax
      rw [if_neg hax, ih]
      simp only [hax2, Bool.false_and, Bool.false_eq_true, if_false]

/-- C6 amended: the group view decoder performs no consistency check and
signals no error; it returns the last scanned team carrying both the
assignment and the chef indicator as cook (none when there is none) and
the assigned teams without the chef indicator as guests, whatever the
number of chef indicators of the group. -/
theorem C6_thm (d : Data) (s : Sol) (c g : ℕ) :
    decodeGroup d s c g =
      { cook := ((List.range d.nTeams).filter fun t =>
          s.assignment t g c && s.chef t g c).getLast?
        guests := (List.range d.nTeams).filter fun t =>
          s.assignment t g c && !s.chef t g c } := by
  unfold decodeGroup
  rw [decodeGroup_foldl]
  simp [Option.or_none]

/-- C7: an input whose team count is not divisible by the course count is
rejected by the pipeline with a fatal error — no data for model
construction is ever produced — and when the header checks pass the error
is precisely the divisibility error. -/
theorem C7_thm (cfg : Config) (input : RawInput)
    (engine : ℕ → ℕ → ℕ → Option ℚ) (afterEngine : ℕ → Option ℚ)
    (hdiv : input.rows.length % cfg.numCourses ≠ 0) :
    (∃ e, runPipeline cfg input engine afterEngine = .error e) ∧
    (headerOK cfg input →
      runPipeline cfg input engine afterEngine = .error .notDivisible) := by
  constructor
  · unfold runPipeline
    by_cases h1 : cfg.ignorePreferences = false ∧
        input.headerLen ≠ 4 + cfg.numCourses
    · rw [if_pos h1]; exact ⟨_, rfl⟩
    · rw [if_neg h1]
      by_cases h2 : cfg.ignorePreferences = true ∧ input.headerLen ≠ 4 ∧
          input.headerLen ≠ 4 + cfg.numCourses
      · rw [if_pos h2]; exact ⟨_, rfl⟩
      · rw [if_neg h2, if_pos hdiv]; exact ⟨_, rfl⟩
  · intro hok
    have hn1 : ¬(cfg.ignorePreferences = false ∧
        input.headerLen ≠ 4 + cfg.numCourses) :=
      fun h => h.2 (hok.1 h.1)
    have hn2 : ¬(cfg.ignorePreferences = true ∧ input.headerLen ≠ 4 ∧
        input.headerLen ≠ 4 + cfg.numCourses) :=
      fun h => (hok.2 h.1).elim h.2.1 h.2.2
    unfold runPipeline
    rw [if_neg hn1, if_neg hn2, if_pos hdiv]

/-- C9: when the distance provider fails on any required inter-team route
of an input that passed the header and divisibility checks, the pipeline
aborts with a distance failure before any model data is assembled; the
missing distance is never defaulted. -/
theorem C9_thm (cfg : Config) (input : RawInput)
    (engine : ℕ → ℕ → ℕ → Option ℚ) (afterEngine : ℕ → Option ℚ)
    (hok : headerOK cfg input)
    (hdiv : input.rows.length % cfg.numCourses = 0)
    (hfail : ∃ p ∈ requiredPairs cfg.asymetricDistances input.rows.length,
      ∃ c, c < cfg.numCourses ∧ engine p.1 p.2 c = none) :
    ∃ i j c, runPipeline cfg input engine afterEngine =
      .error (.distanceFailure i j c) := by
  have hsome : findDistanceFailure engine
      (requiredPairs cfg.asymetricDistances input.rows.length)
      cfg.numCourses ≠ none := by
    intro hnone
    obtain ⟨p, hpmem, c, hc, henone⟩ := hfail
    unfold findDistanceFailure at hnone
    have hinner := List.findSome?_eq_none_iff.mp hnone p hpmem
    have hcell := List.findSome?_eq_none_iff.mp hinner c (List.mem_range.mpr hc)
    rw [henone] at hcell
    exact Option.noConfusion hcell
  obtain ⟨v, hv⟩ := Option.ne_none_iff_exists.mp hsome
  obtain ⟨i, j, c⟩ := v
  refine ⟨i, j, c, ?_⟩
  have hn1 : ¬(cfg.ignorePreferences = false ∧
      input.headerLen ≠ 4 + cfg.numCourses) :=
    fun h => h.2 (hok.1 h.1)
  have hn2 : ¬(cfg.ignorePreferences = true ∧ input.headerLen ≠ 4 ∧
      input.headerLen ≠ 4 + cfg.numCourses) :=
    fun h => (hok.2 h.1).elim h.2.1 h.2.2
  unfold runPipeline
  rw [if_neg hn1, if_neg hn2, if_neg (fun hx => hx hdiv), ← hv]

/-- Specification-side preference term following the words of the claim:
normalisation by the maximum observed preference magnitude (absolute
value) over all teams and courses, sentinel entries excluded from the
sum. -/
def preferencesSpecMagnitude (cfg : Config) (d : Data) (s : Sol) : ℚ :=
  ∑ p ∈ ((Finset.range d.nTeams) ×ˢ (Finset.range (numGroups cfg d)) ×ˢ
      (Finset.range cfg.numCourses)).filter
      (fun p => -1000 < d.pref p.1 p.2.2),
    bq (s.chef p.1 p.2.1 p.2.2) * d.pref p.1 p.2.2 /
      pyMax ((prefEntries cfg d).map (fun q => |q|))

/-- Specification-side preference term with the normalisation the source
actually computes: the maximum observed preference value (signed) over
all teams and courses, sentinel entries excluded from the sum. -/
def preferencesSpecValue (cfg : Config) (d : Data) (s : Sol) : ℚ :=
  ∑ p ∈ ((Finset.range d.nTeams) ×ˢ (Finset.range (numGroups cfg d)) ×ˢ
      (Finset.range cfg.numCourses)).filter
      (fun p => -1000 < d.pref p.1 p.2.2),
    bq (s.chef p.1 p.2.1 p.2.2) * d.pref p.1 p.2.2 /
      pyMax (prefEntries cfg d)

/-- C8 amended: when preferences are used, the preference objective term
of the source equals the sum over all non-sentinel (team, group, course)
triples of the chef indicator weighted by the preference value divided by
the maximum observed preference value (not magnitude) over all teams and
courses. -/
theorem C8_thm (cfg : Config) (d : Data) (s : Sol)
    (hip : cfg.ignorePreferences = false) :
    preferences cfg d s = preferencesSpecValue cfg d s := by
  unfold preferences preferencesSpecValue max_pref
  rw [if_neg (by rw [hip]; exact Bool.false_ne_true),
    if_neg (by rw [hip]; exact Bool.false_ne_true)]
  rw [Finset.sum_filter, Finset.sum_product]
  refine Finset.sum_congr rfl fun t _ => ?_
  rw [Finset.sum_product]

/-- C10: the minimum travel constraint is part of every model whatever
the option flags (the theorem holds for every configuration and the
family carries no guard); the constrained sum counts only inter-team arcs
within courses — it is unchanged by any modification of the afterparty
distances and by any modification of self arcs. -/
theorem C10_thm (cfg : Config) (d : Data) (s : Sol) (hF : Feasible cfg d s)
    (t : ℕ) (ht : t < d.nTeams) :
    (cfg.minTravel : ℚ) ≤ minTravelSum cfg d s t ∧
    (∀ ad : ℕ → ℚ,
      minTravelSum cfg { d with afterparty_dist := ad } s t =
        minTravelSum cfg d s t) ∧
    (∀ s2 : Sol, (∀ c i j g, i ≠ j → s2.arc c i j t g = s.arc c i j t g) →
      minTravelSum cfg d s2 t = minTravelSum cfg d s t) := by
  obtain ⟨hA, hG, hM, hFb, hOne, hOnce, hCA, hArc, hStart, hGo, hLeave,
    hMD0, hMax, hMin, hStay, hCook, hLarge, hAddr⟩ := hF
  refine ⟨hMin t ht, fun ad => rfl, fun s2 h => ?_⟩
  unfold minTravelSum
  refine Finset.sum_congr rfl fun c _ => ?_
  refine Finset.sum_congr rfl fun i _ => ?_
  refine Finset.sum_congr rfl fun j _ => ?_
  refine Finset.sum_congr rfl fun g _ => ?_
  by_cases hij : j = i
  · rw [if_pos hij, if_pos hij]
  · rw [if_neg hij, if_neg hij, h c i j g fun hq => hij hq.symm]

/-- One-team, one-course configuration with preferences used, for the
preference term counterexample. -/
def cfg8 : Config := { numCourses := 1 }

/-- One-team data whose only preference value is -5: the maximum observed
value is -5 while the maximum observed magnitude is 5. -/
def d8 : Data :=
  { nTeams := 1
    distance_matrix := fun _ _ _ => 0
    afterparty_dist := fun _ => 0
    pref := fun _ _ => -5
    addr := fun t => t }

/-- Solution valuation whose only chef indicator is set. -/
def s8 : Sol :=
  { assignment := fun _ _ _ => true
    chef := fun _ _ _ => true
    arc := fun _ _ _ _ _ => true
    maxDuration := 0
    largeTeam := fun _ => false }

/-- Two-team data for the decoder counterexample. -/
def d2 : Data :=
  { nTeams := 2
    distance_matrix := fun _ _ _ => 0
    afterparty_dist := fun _ => 0
    pref := fun _ _ => 0
    addr := fun t => t }

/-- Variable values carrying two chef indicators in group 0 of course 0:
an inconsistent solution the decoder is fed in the counterexample. -/
def sTwoChefs : Sol :=
  { assignment := fun _ _ _ => true
    chef := fun _ _ _ => true
    arc := fun _ _ _ _ _ => true
    maxDuration := 0
    largeTeam := fun _ => false }

/-- Variable values carrying exactly one chef indicator (team 1, which is
also the only assigned team). -/
def sOneChef : Sol :=
  { assignment := fun t _ _ => t == 1
    chef := fun t _ _ => t == 1
    arc := fun _ _ _ _ _ => false
    maxDuration := 0
    largeTeam := fun _ => false }

/-- Input of four rows used to instantiate the divisibility failure. -/
def input7 : RawInput :=
  { headerLen := 4, rows := List.replicate 4 { addr := 0, pref := fun _ => 0 } }

/-- Three-course configuration with preferences ignored for the
divisibility failure instance. -/
def cfg7 : Config := { numCourses := 3, ignorePreferences := true }

/-- A provider that resolves every route instantly. -/
def engineOk : ℕ → ℕ → ℕ → Option ℚ := fun _ _ _ => some 0

/-- An afterparty provider that resolves every route. -/
def afterOk : ℕ → Option ℚ := fun _ => some 0

/-- A provider that fails on every route. -/
def engineFail : ℕ → ℕ → ℕ → Option ℚ := fun _ _ _ => none

/-- Two-row, one-course input that passes the header and divisibility
checks, used to instantiate the distance failure. -/
def input9w : RawInput :=
  { headerLen := 4, rows := List.replicate 2 { addr := 0, pref := fun _ => 0 } }

/-- One-course configuration for the distance failure instance. -/
def cfg9w : Config := { numCourses := 1, ignorePreferences := true }

/-- C6 counterexample: fed a group carrying two chef indicators, the
decoder returns the same ordinary roster (cook = the later chef, no
guests) that it returns for a consistent one-chef group: no
inconsistency is signalled, zero or multiple chefs are silently
accepted. -/
theorem C6_cex :
    decodeGroup d2 sTwoChefs 0 0 = decodeGroup d2 sOneChef 0 0 ∧
    chefIndicatorCount d2 sTwoChefs 0 0 = 2 ∧
    chefIndicatorCount d2 sOneChef 0 0 = 1 ∧
    decodeGroup d2 sTwoChefs 0 0 = { cook := some 1, guests := [] } := by
  decide

/-- C7 witness: four teams with three courses are rejected with the
divisibility error. -/
theorem C7_w :
    (∃ e, runPipeline cfg7 input7 engineOk afterOk = .error e) ∧
    (headerOK cfg7 input7 →
      runPipeline cfg7 input7 engineOk afterOk = .error .notDivisible) :=
  C7_thm cfg7 input7 engineOk afterOk (by decide)

/-- C9 witness: a provider failing on the single required route aborts
the pipeline with a distance failure. -/
theorem C9_w :
    ∃ i j c, runPipeline cfg9w input9w engineFail afterOk =
      .error (.distanceFailure i j c) :=
  C9_thm cfg9w input9w engineFail afterOk (by decide) (by decide)
    ⟨(0, 1), by decide, 0, by decide, rfl⟩

set_option maxRecDepth 100000
set_option maxHeartbeats 4000000

section

attribute [local semireducible] Rat.add Rat.mul Rat.sub Rat.inv

/-- C1 counterexample: on the three-team instance whose first team holds
the forbidden sentinel for the first course, the schedule in which that
team cooks the first course is feasible when preferences are ignored and
infeasible when they are used: the two models do not have identical
feasible regions. -/
theorem C1_cex :
    Feasible { cfg3 with ignorePreferences := true } d3 s3 ∧
    ¬ Feasible { cfg3 with ignorePreferences := false } d3 s3 := by
  decide

/-- C1 witness: the sentinel-free one-team instance instantiates the
amended equivalence. -/
theorem C1_w :
    Feasible { cfg1 with ignorePreferences := true } d1 s1 ↔
    Feasible { cfg1 with ignorePreferences := false } d1 s1 :=
  C1_thm cfg1 d1 s1 (by decide)

/-- C2 witness: the feasible six-team schedule instantiates the decoded
itinerary properties for team 0. -/
theorem C2_w :
    (decodeTour cfg6 d6 s6 0).length = cfg6.numCourses ∧
    (decodeTour cfg6 d6 s6 0).map TourLeg.gang = List.range cfg6.numCourses ∧
    (∀ l1 ∈ decodeTour cfg6 d6 s6 0, ∀ l2 ∈ decodeTour cfg6 d6 s6 0,
      l2.gang = l1.gang + 1 → l2.origin = l1.dest) ∧
    (∀ l ∈ decodeTour cfg6 d6 s6 0, s6.chef l.dest l.group l.gang = true) ∧
    (afterpartyEntries cfg6 d6 s6 0).length = 1 :=
  C2_thm cfg6 d6 s6 (by decide) 0 (by decide)

/-- C4 evaluation at the failing input: with teams 0 and 1 configured as
cook incompatible, the schedule in which team 0 cooks for team 1 in
course 0 satisfies every model constraint — the exclusion does not hold
in the direction where the earlier listed team is the chef. -/
theorem C4_thm :
    Feasible cfg6 d6 s6 ∧
    (0, 1) ∈ combinations2 cfg6.cookIncompatible ∧
    s6.chef 0 0 0 = true ∧ s6.assignment 1 0 0 = true ∧
    s6.chef 1 0 0 = false := by
  decide

/-- C5 witness: the feasible nine-team unique-meeting schedule
instantiates the meeting-uniqueness consequences. -/
theorem C5_w :
    meetOnlyOnce cfg9 d9 s9 ∧
    (∀ t1, t1 < d9.nTeams → ∀ t2, t2 < d9.nTeams → t1 ≠ t2 →
      ∀ c1, c1 < cfg9.numCourses → ∀ c2, c2 < cfg9.numCourses → c1 ≠ c2 →
        ∀ g1, g1 < numGroups cfg9 d9 → ∀ g2, g2 < numGroups cfg9 d9 →
          ¬(s9.assignment t1 g1 c1 = true ∧ s9.assignment t2 g1 c1 = true ∧
            s9.assignment t1 g2 c2 = true ∧ s9.assignment t2 g2 c2 = true)) :=
  C5_thm cfg9 d9 s9 (by decide) rfl

/-- C8 counterexample: with the single preference value -5 the source
term divides by the maximum value -5 and yields 1 while the
magnitude-normalised term of the claim divides by 5 and yields -1. -/
theorem C8_cex :
    preferences cfg8 d8 s8 = 1 ∧
    preferencesSpecMagnitude cfg8 d8 s8 = -1 ∧
    preferences cfg8 d8 s8 ≠ preferencesSpecMagnitude cfg8 d8 s8 := by
  decide

/-- C8 witness: the amended normalisation equality at the concrete
one-team instance. -/
theorem C8_w : preferences cfg8 d8 s8 = preferencesSpecValue cfg8 d8 s8 :=
  C8_thm cfg8 d8 s8 rfl

/-- C10 witness: the one-team instance instantiates the minimum travel
bound and the invariance properties. -/
theorem C10_w :
    ((cfg1.minTravel : ℚ) ≤ minTravelSum cfg1 d1 s1 0) ∧
    (∀ ad : ℕ → ℚ,
      minTravelSum cfg1 { d1 with afterparty_dist := ad } s1 0 =
        minTravelSum cfg1 d1 s1 0) ∧
    (∀ s2 : Sol, (∀ c i j g, i ≠ j → s2.arc c i j 0 g = s1.arc c i j 0 g) →
      minTravelSum cfg1 d1 s2 0 = minTravelSum cfg1 d1 s1 0) :=
  C10_thm cfg1 d1 s1 (by decide) 0 (by decide)

end
